import Mathlib

/-!
Verification of the retrieval-and-answering pipeline of `qa_engine.py`
(question-answer-system): message store load, user matching, keyword
retrieval, context assembly, fallback answer generation and the engine
facade, as shallow Lean embeddings of the Python source.
-/

namespace QA

/-! ## Python string primitives

Python string operations are modelled at the character-list level:
`str.lower()` maps `Char.toLower` over the characters, `a in b` is
contiguous-substring containment, `str.split()` splits on whitespace runs
dropping empty tokens, `sep.join(parts)` interposes the separator, and
`s[:n]` takes the first `n` characters. -/

/-- Python `str.lower()` (per-character lowercasing). -/
def pyLower (s : String) : String :=
  String.mk (s.toList.map Char.toLower)

/-- Character-list prefix test. -/
def isPre : List Char → List Char → Bool
  | [], _ => true
  | _ :: _, [] => false
  | a :: as, b :: bs => a = b && isPre as bs

/-- Contiguous-sublist test on character lists. -/
def subList (n : List Char) : List Char → Bool
  | [] => n.isEmpty
  | c :: t => isPre n (c :: t) || subList n t

/-- Python `needle in hay` on strings (contiguous substring containment). -/
def strIn (needle hay : String) : Bool :=
  subList needle.toList hay.toList

/-- Helper for `pySplit`: scan characters, `cur` is the reversed current
token. Splits on whitespace runs, dropping empty tokens. -/
def splitWsAux : List Char → List Char → List (List Char)
  | [], cur => if cur = [] then [] else [cur.reverse]
  | c :: cs, cur =>
    if c.isWhitespace then
      if cur = [] then splitWsAux cs []
      else cur.reverse :: splitWsAux cs []
    else splitWsAux cs (c :: cur)

/-- Python `str.split()` with no argument: split on whitespace runs,
no empty tokens. -/
def pySplit (s : String) : List String :=
  (splitWsAux s.toList []).map String.mk

/-- Python `sep.join(parts)`. -/
def pyJoin (sep : String) : List String → String
  | [] => ""
  | [x] => x
  | x :: xs => x ++ sep ++ pyJoin sep xs

/-- Python `s[:n]` on strings (first `n` characters). -/
def strTake (s : String) (n : Nat) : String :=
  String.mk (s.toList.take n)

/-! ## Data model -/

/-- A member message as fetched from the remote source
(`qa_engine.py` uses the `user_name`, `message` and `timestamp` fields). -/
structure Message where
  user_name : String
  message : String
  timestamp : String
deriving DecidableEq, Repr

/-- The per-user grouping `self.user_messages`: a `defaultdict(list)`
modelled as an insertion-ordered association list. -/
abbrev UserDict := List (String × List Message)

/-- Python `d[k]` lookup (no default). -/
def dLookup (d : UserDict) (k : String) : Option (List Message) :=
  (List.find? (fun p => p.1 = k) d).map (fun p => p.2)

/-- Python `k in d` membership test on the dict. -/
def keyMem (d : UserDict) (k : String) : Bool :=
  (dLookup d k).isSome

/-- `defaultdict(list)` subscripting `d[k]`: returns the bucket and the
(possibly extended) dict — a missing key is auto-vivified with `[]`. -/
def ddIndex (d : UserDict) (k : String) : List Message × UserDict :=
  match dLookup d k with
  | some v => (v, d)
  | none => ([], d ++ [(k, [])])

/-- Python `d.get(k, dflt)`: lookup with default, never mutates. -/
def dictGet (d : UserDict) (k : String) (dflt : List Message) : List Message :=
  match dLookup d k with
  | some v => v
  | none => dflt

/-- `user_messages[msg.user_name].append(msg)` during load: append to the
key's bucket, creating the bucket at the end on first sight of the key. -/
def dAppend (d : UserDict) (k : String) (m : Message) : UserDict :=
  match d with
  | [] => [(k, [m])]
  | (k', v) :: rest =>
    if k' = k then (k', v ++ [m]) :: rest else (k', v) :: dAppend rest k m

/-! ## Message Store load phase (`_fetch_messages`)

The remote source is modelled as a list of responses consumed in request
order.  `FetchResponse.transport` is a `requests.exceptions.RequestException`;
`FetchResponse.http status items total` is an HTTP response with the given
status code, optional `items` field and optional `total` field.

`fetchLoop` mirrors the nested `while` loops of `_fetch_messages` exactly:
the outer loop resets `retry_count` to 0, the inner loop retries on
transport error up to `max_retries = 3` attempts, a non-200 status breaks
the inner loop only (the dead `retry_count >= max_retries` guard after the
inner loop is kept verbatim), a page with missing or empty `items` returns,
and the loop returns when the cumulative count reaches a reported `total`.

`finished = true` means the Python function returned; `finished = false`
means the response list was exhausted while the code was still looping
(so within this request budget the function never returned). `requests`
counts HTTP attempts made. -/

inductive FetchResponse where
  | transport : FetchResponse
  | http : Nat → Option (List Message) → Option Nat → FetchResponse
deriving DecidableEq, Repr

structure FetchResult where
  messages : List Message
  userDict : UserDict
  requests : Nat
  finished : Bool
deriving DecidableEq

/-- One page of fetched items appended to the store
(`for msg in data['items']: ...`). -/
def storePage (msgs : List Message) (d : UserDict) (its : List Message) :
    List Message × UserDict :=
  (msgs ++ its, its.foldl (fun acc m => dAppend acc m.user_name m) d)

def fetchLoop : List FetchResponse → List Message → UserDict → Nat → Nat → FetchResult
  | [], msgs, d, _skip, _rc =>
    { messages := msgs, userDict := d, requests := 0, finished := false }
  | r :: rest, msgs, d, skip, rc =>
    match r with
    | .transport =>
      -- `except RequestException`: retry_count += 1; return at max_retries
      if 3 ≤ rc + 1 then
        { messages := msgs, userDict := d, requests := 1, finished := true }
      else
        let res := fetchLoop rest msgs d skip (rc + 1)
        { res with requests := res.requests + 1 }
    | .http status items total =>
      if status ≠ 200 then
        -- `break` out of the retry loop; the post-loop guard
        -- `retry_count >= max_retries` is checked, then the outer
        -- `while True` restarts with retry_count = 0 at the same skip
        if 3 ≤ rc then
          { messages := msgs, userDict := d, requests := 1, finished := true }
        else
          let res := fetchLoop rest msgs d skip 0
          { res with requests := res.requests + 1 }
      else
        match items with
        | none =>
          -- `'items' not in data`
          { messages := msgs, userDict := d, requests := 1, finished := true }
        | some its =>
          if its.length = 0 then
            { messages := msgs, userDict := d, requests := 1, finished := true }
          else
            let (msgs', d') := storePage msgs d its
            match total with
            | some t =>
              if t ≤ msgs'.length then
                { messages := msgs', userDict := d', requests := 1, finished := true }
              else
                let res := fetchLoop rest msgs' d' (skip + 100) 0
                { res with requests := res.requests + 1 }
            | none =>
              let res := fetchLoop rest msgs' d' (skip + 100) 0
              { res with requests := res.requests + 1 }

/-- `_fetch_messages`: start with empty store, `skip = 0`. -/
def fetchMessages (env : List FetchResponse) : FetchResult :=
  fetchLoop env [] [] 0 0

/-! ## User Matcher (`_fuzzy_match_user`)

`rapidfuzz.fuzz.ratio` is an external library call; it is modelled as an
abstract score function `ratio : String → String → Nat` and every theorem
is quantified over it.  `user.split()[0]` raises `IndexError` when the
split is empty, so the matcher is embedded in `Except String`. -/

/-- The exact/substring pass: first user whose lowercased name contains or
is contained in the lowercased query (`for user in self.user_messages.keys()`
with early return). -/
def substrPass (ql : String) : List (String × List Message) → Option String
  | [] => none
  | (u, _) :: rest =>
    if strIn (pyLower u) ql || strIn ql (pyLower u) then some u
    else substrPass ql rest

/-- The inner loop `for query_token in query_lower.split()`: update
`(best_match, best_score)` on strictly greater score. -/
def tokenScan (ratio : String → String → Nat) (fn : String) (u : String) :
    List String → Option String × Nat → Option String × Nat
  | [], acc => acc
  | t :: ts, (best, bs) =>
    let s := ratio fn t
    if bs < s then tokenScan ratio fn u ts (some u, s)
    else tokenScan ratio fn u ts (best, bs)

/-- The outer loop `for user in self.user_messages.keys()` of the fuzzy
pass; `user.split()[0]` raises when the name has no token. -/
def userScan (ratio : String → String → Nat) (toks : List String) :
    List (String × List Message) → Option String × Nat →
    Except String (Option String × Nat)
  | [], acc => .ok acc
  | (u, _) :: rest, acc =>
    match pySplit u with
    | [] => .error "IndexError"
    | f :: _ => userScan ratio toks rest (tokenScan ratio (pyLower f) u toks acc)

/-- `_fuzzy_match_user(query)`: substring pass, then fuzzy pass with
threshold 75 against `(best_match, best_score)` initialised to
`(None, 0)`. -/
def fuzzyMatchUser (ratio : String → String → Nat)
    (users : List (String × List Message)) (query : String) :
    Except String (Option String) :=
  let ql := pyLower query
  match substrPass ql users with
  | some u => .ok (some u)
  | none =>
    match userScan ratio (pySplit ql) users (none, 0) with
    | .error e => .error e
    | .ok (best, bs) => .ok (if 75 ≤ bs then best else none)

/-! ## Retriever (`_keyword_retrieval`, `_retrieve_context`) -/

/-- `len(set(question.lower().split()) & set(msg['message'].lower().split()))`:
number of distinct question words that occur among the message's words. -/
def overlapCount (question : String) (m : Message) : Nat :=
  (((pySplit (pyLower question)).dedup).filter
    (fun w => (pySplit (pyLower m.message)).contains w)).length

/-- `_keyword_retrieval(question, top_k)`: score every corpus message,
keep positive overlaps, stable-sort descending by score
(`list.sort(reverse=True, key=...)`, Python sorts are stable), take the
first `top_k` and drop the scores. -/
def keywordRetrieval (msgs : List Message) (question : String) (topK : Nat) :
    List Message :=
  let scored := (msgs.map (fun m => (overlapCount question m, m))).filter
    (fun p => 0 < p.1)
  let sorted := scored.mergeSort (fun a b => decide (b.1 ≤ a.1))
  (sorted.take topK).map (fun p => p.2)

/-- One context line:
`f"[{msg['timestamp'][:10]}] {msg['user_name']}: {msg['message']}"`. -/
def fmtMsg (m : Message) : String :=
  "[" ++ strTake m.timestamp 10 ++ "] " ++ m.user_name ++ ": " ++ m.message

/-- `_retrieve_context(question)`: match a user; when a (truthy) user is
matched and is a dict key, take its bucket via `self.user_messages[user]`
(the `defaultdict` subscript, hence the threaded dict); otherwise fall
back to keyword retrieval with the default `top_k = 20`.  Returns
`((context_text, source_messages), dict after the call)`. -/
def retrieveContext (ratio : String → String → Nat) (msgs : List Message)
    (d : UserDict) (question : String) :
    Except String ((String × List Message) × UserDict) :=
  match fuzzyMatchUser ratio d question with
  | .error e => .error e
  | .ok um =>
    let pr : List Message × UserDict :=
      match um with
      | some u =>
        if u ≠ "" ∧ keyMem d u = true then ddIndex d u
        else (keywordRetrieval msgs question 20, d)
      | none => (keywordRetrieval msgs question 20, d)
    .ok ((pyJoin "\n" (pr.1.map fmtMsg), pr.1), pr.2)

/-! ## Answer Generator, fallback mode (`_generate_fallback`) -/

def needKeyMsg : String :=
  "I apologize, but I need an LLM API key to answer complex questions. Please configure OPENAI_API_KEY or ANTHROPIC_API_KEY."

def noMsgsFrom (u : String) : String :=
  "I don't have any messages from " ++ u ++ "."

def basedOnMsg (u : String) (rel : List Message) : String :=
  "Based on " ++ u ++ "'s messages: " ++
    pyJoin "; " ((rel.take 3).map (fun m => m.message))

def foundCarsMsg (u : String) (n : Nat) : String :=
  "Found " ++ toString n ++ " message(s) from " ++ u ++
    " mentioning cars. However, I need an LLM to provide a detailed answer."

def insufficientMsg (u : String) : String :=
  "I don't have enough information to answer that question about " ++ u ++ "."

def genericMsg (u : String) (n : Nat) : String :=
  "I found " ++ toString n ++ " message(s) from " ++ u ++
    ", but I need an LLM API key to provide a detailed answer. Please configure OPENAI_API_KEY or ANTHROPIC_API_KEY."

/-- `_generate_fallback(question, context)` (the context argument is
unused by the Python code as well).  Re-runs the user matcher; a falsy
(`None` or empty) user name yields the configure-a-key message; then the
`if/elif` keyword-category chain over the user's messages fetched with
`self.user_messages.get(user_name, [])`. -/
def generateFallback (ratio : String → String → Nat) (d : UserDict)
    (question _ctx : String) : Except String String :=
  match fuzzyMatchUser ratio d question with
  | .error e => .error e
  | .ok um =>
    match um with
    | none => .ok needKeyMsg
    | some u =>
      if u = "" then .ok needKeyMsg
      else
        let ql := pyLower question
        let msgs := dictGet d u []
        if msgs = [] then .ok (noMsgsFrom u)
        else if strIn "trip" ql || strIn "travel" ql || strIn "when" ql then
          let rel := msgs.filter (fun m =>
            strIn "trip" (pyLower m.message) || strIn "travel" (pyLower m.message))
          if rel = [] then .ok (genericMsg u msgs.length)
          else .ok (basedOnMsg u rel)
        else if strIn "car" ql || strIn "how many" ql then
          let rel := msgs.filter (fun m => strIn "car" (pyLower m.message))
          if rel = [] then .ok (insufficientMsg u)
          else .ok (foundCarsMsg u rel.length)
        else if strIn "restaurant" ql || strIn "favorite" ql then
          let rel := msgs.filter (fun m => strIn "restaurant" (pyLower m.message))
          if rel = [] then .ok (genericMsg u msgs.length)
          else .ok (basedOnMsg u rel)
        else .ok (genericMsg u msgs.length)

def apologyMsg : String :=
  "I apologize, but I encountered an error while processing your question. Please try again."

/-- `_generate_answer_with_llm` in fallback mode: `try` the fallback
generator, `except Exception` yields the apology string. -/
def generateAnswerFB (ratio : String → String → Nat) (d : UserDict)
    (question ctx : String) : String :=
  match generateFallback ratio d question ctx with
  | .ok s => s
  | .error _ => apologyMsg

/-! ## Engine Facade (`answer_question`) -/

def noInfoMsg : String :=
  "I couldn't find any relevant information to answer your question."

/-- `answer_question(question)` with an abstract answer generator `gen`
standing for `_generate_answer_with_llm` (which catches all exceptions):
retrieve context, return the fixed no-information message on an empty
(falsy) context, otherwise delegate to the generator. -/
def answerQuestion (ratio : String → String → Nat)
    (gen : String → String → String) (msgs : List Message) (d : UserDict)
    (question : String) : Except String (String × UserDict) :=
  match retrieveContext ratio msgs d question with
  | .error e => .error e
  | .ok ((ctx, _srcs), d') =>
    if ctx = "" then .ok (noInfoMsg, d')
    else .ok (gen question ctx, d')

/-- `answer_question` when the engine runs in fallback mode: the answer
generator is `_generate_answer_with_llm` specialised to the fallback path,
reading the dict state left by retrieval. -/
def answerQuestionFB (ratio : String → String → Nat) (msgs : List Message)
    (d : UserDict) (question : String) : Except String (String × UserDict) :=
  match retrieveContext ratio msgs d question with
  | .error e => .error e
  | .ok ((ctx, _srcs), d') =>
    if ctx = "" then .ok (noInfoMsg, d')
    else .ok (generateAnswerFB ratio d' question ctx, d')

/-! ## Specification-side helper definitions -/

/-- A page response carrying a 200 status, a nonempty `items` list and no
`total` field. -/
def goodPage : FetchResponse → Bool
  | .http status (some its) none => decide (status = 200) && decide (its ≠ [])
  | _ => false

/-- Maximum of a list of naturals (0 on the empty list). -/
def listMax : List Nat → Nat
  | [] => 0
  | x :: xs => max x (listMax xs)

/-- The lowercased first whitespace token of a user name
(`user.split()[0].lower()`); empty-token names default to `""`. -/
def firstNameOf (u : String) : String :=
  pyLower ((pySplit u).headD "")

/-- Best similarity score of one user's first name against all query
tokens. -/
def userBestScore (ratio : String → String → Nat) (toks : List String)
    (u : String) : Nat :=
  listMax (toks.map (fun t => ratio (firstNameOf u) t))

/-- Highest score across all (user, query-token) pairs. -/
def maxScoreOf (ratio : String → String → Nat)
    (users : List (String × List Message)) (toks : List String) : Nat :=
  listMax (users.map (fun p => userBestScore ratio toks p.1))

/-- Interpose `'\n'` between character lists (the char-level image of
`"\n".join`). -/
def joinNLC : List (List Char) → List Char
  | [] => []
  | [x] => x
  | x :: xs => x ++ '\n' :: joinNLC xs

/-- Split a character list at every `'\n'` (always returns at least one
segment, like Python `str.split("\n")`). -/
def splitNLC : List Char → List (List Char)
  | [] => [[]]
  | c :: cs =>
    match splitNLC cs with
    | [] => [[]]
    | h :: t => if c = '\n' then [] :: h :: t else (c :: h) :: t

/-- Sample message used by concrete witnesses. -/
def mA : Message :=
  { user_name := "Alice Smith", message := "my trip was great",
    timestamp := "2024-01-02T10:00:00" }

/-- Second sample message used by concrete witnesses. -/
def mB : Message :=
  { user_name := "Alice Smith", message := "the new car arrived",
    timestamp := "2024-02-03T11:00:00" }

/-! ## Theorems -/

/-- Claim C1 (code bug evidence): a non-200 HTTP status does **not** stop
the load.  With a 500 response followed by a 200 page, `_fetch_messages`
issues a second request for the same page and stores its item — the load
went on past the non-200 response; and with five consecutive 500
responses the function has still not returned after five requests (the
outer `while True` refetches the page forever, the post-loop
`retry_count >= max_retries` guard being unreachable). -/
theorem claim_C1_non200_does_not_stop_load :
    (fetchMessages [FetchResponse.http 500 none none,
        FetchResponse.http 200 (some [mA]) (some 1)]).messages = [mA] ∧
    (fetchMessages [FetchResponse.http 500 none none,
        FetchResponse.http 200 (some [mA]) (some 1)]).requests = 2 ∧
    (fetchMessages [FetchResponse.http 500 none none,
        FetchResponse.http 200 (some [mA]) (some 1)]).finished = true ∧
    (fetchMessages (List.replicate 5 (FetchResponse.http 500 none none))).messages = [] ∧
    (fetchMessages (List.replicate 5 (FetchResponse.http 500 none none))).requests = 5 ∧
    (fetchMessages (List.replicate 5 (FetchResponse.http 500 none none))).finished = false := by
  decide

theorem fetchLoop_nil (msgs : List Message) (d : UserDict) (skip rc : Nat) :
    fetchLoop [] msgs d skip rc =
      { messages := msgs, userDict := d, requests := 0, finished := false } :=
  rfl

theorem fetchLoop_requests_pos (r : FetchResponse) (rest : List FetchResponse)
    (msgs : List Message) (d : UserDict) (skip rc : Nat) :
    1 ≤ (fetchLoop (r :: rest) msgs d skip rc).requests := by
  cases r with
  | transport =>
    simp only [fetchLoop]
    split <;> simp
  | http status items total =>
    simp only [fetchLoop, storePage]
    repeat (first | simp | split)

/-- On a run of pages that all report status 200, a nonempty `items` list
and no `total` field, the fetch loop never returns. -/
theorem fetchLoop_goodPages (env : List FetchResponse) :
    ∀ (msgs : List Message) (d : UserDict) (skip rc : Nat),
      (∀ r ∈ env, goodPage r = true) →
      (fetchLoop env msgs d skip rc).finished = false := by
  induction env with
  | nil => intro msgs d skip rc _; rfl
  | cons r rest ih =>
    intro msgs d skip rc h
    have hr := h r (List.mem_cons_self r rest)
    have hrest : ∀ x ∈ rest, goodPage x = true :=
      fun x hx => h x (List.mem_cons_of_mem r hx)
    cases r with
    | transport => simp [goodPage] at hr
    | http status items total =>
      cases items with
      | none => simp [goodPage] at hr
      | some its =>
        cases total with
        | some t => simp [goodPage] at hr
        | none =>
          simp only [goodPage, Bool.and_eq_true, decide_eq_true_eq] at hr
          obtain ⟨h200, hne⟩ := hr
          subst h200
          cases its with
          | nil => exact absurd rfl hne
          | cons x xs =>
            simp only [fetchLoop, storePage, ne_eq, not_true_eq_false,
              reduceIte, List.length_cons, Nat.succ_ne_zero]
            exact ih _ _ _ _ hrest

theorem fetchLoop_ok_noTotal (x : Message) (xs : List Message)
    (rest : List FetchResponse) (msgs : List Message) (d : UserDict)
    (skip rc : Nat) :
    fetchLoop (FetchResponse.http 200 (some (x :: xs)) none :: rest) msgs d skip rc =
      { fetchLoop rest (msgs ++ x :: xs)
          ((x :: xs).foldl (fun acc m => dAppend acc m.user_name m) d)
          (skip + 100) 0 with
        requests :=
          (fetchLoop rest (msgs ++ x :: xs)
            ((x :: xs).foldl (fun acc m => dAppend acc m.user_name m) d)
            (skip + 100) 0).requests + 1 } :=
  rfl

theorem fetchLoop_ok_total (x : Message) (xs : List Message) (t : Nat)
    (rest : List FetchResponse) (msgs : List Message) (d : UserDict)
    (skip rc : Nat) :
    fetchLoop (FetchResponse.http 200 (some (x :: xs)) (some t) :: rest) msgs d skip rc =
      if t ≤ (msgs ++ x :: xs).length then
        { messages := msgs ++ x :: xs,
          userDict := (x :: xs).foldl (fun acc m => dAppend acc m.user_name m) d,
          requests := 1, finished := true }
      else
        { fetchLoop rest (msgs ++ x :: xs)
            ((x :: xs).foldl (fun acc m => dAppend acc m.user_name m) d)
            (skip + 100) 0 with
          requests :=
            (fetchLoop rest (msgs ++ x :: xs)
              ((x :: xs).foldl (fun acc m => dAppend acc m.user_name m) d)
              (skip + 100) 0).requests + 1 } :=
  rfl

/-- Claim C7: the paginated fetch stops exactly on an empty/missing
`items` page or when the cumulative count reaches a reported `total`;
with no `total` the count condition never fires; a 150-total source with
limit 100 takes exactly 2 requests, and a 50-total source answered by one
50-item page takes exactly 1. -/
theorem claim_C7_fetch_stop_conditions :
    ((fetchMessages [FetchResponse.http 200 (some (List.replicate 100 mA)) (some 150),
        FetchResponse.http 200 (some (List.replicate 50 mA)) (some 150)]).requests = 2 ∧
      (fetchMessages [FetchResponse.http 200 (some (List.replicate 100 mA)) (some 150),
        FetchResponse.http 200 (some (List.replicate 50 mA)) (some 150)]).finished = true ∧
      (fetchMessages [FetchResponse.http 200 (some (List.replicate 100 mA)) (some 150),
        FetchResponse.http 200 (some (List.replicate 50 mA)) (some 150)]).messages.length = 150) ∧
    ((fetchMessages [FetchResponse.http 200 (some (List.replicate 50 mA)) (some 50)]).requests = 1 ∧
      (fetchMessages [FetchResponse.http 200 (some (List.replicate 50 mA)) (some 50)]).finished = true ∧
      (fetchMessages [FetchResponse.http 200 (some (List.replicate 50 mA)) (some 50)]).messages.length = 50) ∧
    (∀ env : List FetchResponse, (∀ r ∈ env, goodPage r = true) →
      (fetchMessages env).finished = false) ∧
    (∀ (items : Option (List Message)) (total : Option Nat)
        (rest : List FetchResponse) (msgs : List Message) (d : UserDict)
        (skip rc : Nat),
      ((fetchLoop (FetchResponse.http 200 items total :: rest) msgs d skip rc).finished = true ∧
        (fetchLoop (FetchResponse.http 200 items total :: rest) msgs d skip rc).requests = 1) ↔
      (items = none ∨ items = some [] ∨
        ∃ its t, items = some its ∧ total = some t ∧ its ≠ [] ∧
          t ≤ msgs.length + its.length)) := by
  refine ⟨by decide, by decide,
    fun env h => fetchLoop_goodPages env [] [] 0 0 h, ?_⟩
  intro items total rest msgs d skip rc
  cases items with
  | none => simp [fetchLoop]
  | some its =>
    cases its with
    | nil => simp [fetchLoop]
    | cons x xs =>
      cases total with
      | none =>
        rw [fetchLoop_ok_noTotal]
        constructor
        · rintro ⟨hf, hreq⟩
          cases rest with
          | nil => rw [fetchLoop_nil] at hf; exact absurd hf (by simp)
          | cons r rrest =>
            have hp := fetchLoop_requests_pos r rrest (msgs ++ x :: xs)
              ((x :: xs).foldl (fun acc m => dAppend acc m.user_name m) d)
              (skip + 100) 0
            simp only [] at hreq
            omega
        · rintro (h | h | ⟨its', t', h1, h2, h3, h4⟩) <;> simp_all
      | some t =>
        rw [fetchLoop_ok_total]
        by_cases hle : t ≤ (msgs ++ x :: xs).length
        · rw [if_pos hle]
          constructor
          · intro _
            refine Or.inr (Or.inr ⟨x :: xs, t, rfl, rfl, by simp, ?_⟩)
            simpa [List.length_append] using hle
          · intro _
            exact ⟨rfl, rfl⟩
        · rw [if_neg hle]
          constructor
          · rintro ⟨hf, hreq⟩
            cases rest with
            | nil => rw [fetchLoop_nil] at hf; exact absurd hf (by simp)
            | cons r rrest =>
              have hp := fetchLoop_requests_pos r rrest (msgs ++ x :: xs)
                ((x :: xs).foldl (fun acc m => dAppend acc m.user_name m) d)
                (skip + 100) 0
              simp only [] at hreq
              omega
          · rintro (h | h | ⟨its', t', h1, h2, h3, h4⟩)
            · exact absurd h (by simp)
            · exact absurd h (by simp)
            · obtain rfl : x :: xs = its' := by injection h1
              obtain rfl : t = t' := by injection h2
              refine absurd h4 ?_
              simp only [List.length_append, List.length_cons] at hle ⊢
              omega

/-! ### User Matcher lemmas -/

theorem substrPass_eq_find (ql : String) (users : List (String × List Message)) :
    substrPass ql users =
      (users.find? (fun p => strIn (pyLower p.1) ql || strIn ql (pyLower p.1))).map
        (fun p => p.1) := by
  induction users with
  | nil => rfl
  | cons p rest ih =>
    obtain ⟨u, ms⟩ := p
    by_cases h : (strIn (pyLower u) ql || strIn ql (pyLower u)) = true
    · simp [substrPass, List.find?_cons_of_pos, h]
    · rw [substrPass, if_neg (by simpa using h), ih,
        List.find?_cons_of_neg _ (by simpa using h)]

/-- Claim C4: when some user name (lowercased) contains or is contained in
the lowercased query, the matcher returns the first such user, for every
score function (the fuzzy pass is irrelevant), and never raises. -/
theorem claim_C4_substring_pass (ratio : String → String → Nat)
    (users : List (String × List Message)) (q : String)
    (p : String × List Message)
    (h : users.find? (fun p => strIn (pyLower p.1) (pyLower q) ||
        strIn (pyLower q) (pyLower p.1)) = some p) :
    fuzzyMatchUser ratio users q = .ok (some p.1) := by
  simp [fuzzyMatchUser, substrPass_eq_find, h]

theorem tokenScan_eq (ratio : String → String → Nat) (fn : String)
    (u : String) (toks : List String) : ∀ (best : Option String) (bs : Nat),
    tokenScan ratio fn u toks (best, bs) =
      (if bs < listMax (toks.map (ratio fn)) then some u else best,
        max bs (listMax (toks.map (ratio fn)))) := by
  induction toks with
  | nil =>
    intro best bs
    simp [tokenScan, listMax]
  | cons t ts ih =>
    intro best bs
    simp only [tokenScan, List.map_cons, listMax]
    by_cases h : bs < ratio fn t
    · rw [if_pos h, ih]
      have h1 : bs < max (ratio fn t) (listMax (ts.map (ratio fn))) :=
        lt_max_iff.mpr (Or.inl h)
      rw [if_pos h1]
      refine Prod.ext ?_ ?_
      · simp
      · simp only []
        rw [max_eq_right (le_of_lt h1)]
    · rw [if_neg h, ih]
      have hs : ratio fn t ≤ bs := Nat.le_of_not_lt h
      refine Prod.ext ?_ ?_
      · simp only []
        have : (bs < max (ratio fn t) (listMax (ts.map (ratio fn)))) ↔
            bs < listMax (ts.map (ratio fn)) := by
          rw [lt_max_iff]
          constructor
          · rintro (h' | h')
            · exact absurd h' h
            · exact h'
          · exact Or.inr
        rw [if_congr this rfl rfl]
      · simp only []
        rw [← max_assoc, max_eq_left hs]

theorem userScan_eq (ratio : String → String → Nat) (toks : List String)
    (users : List (String × List Message))
    (h : ∀ p ∈ users, pySplit p.1 ≠ []) : ∀ (best : Option String) (bs : Nat),
    userScan ratio toks users (best, bs) =
      .ok (if bs < maxScoreOf ratio users toks then
            (users.find? (fun p =>
              userBestScore ratio toks p.1 =
                max bs (maxScoreOf ratio users toks))).map (fun p => p.1)
          else best,
        max bs (maxScoreOf ratio users toks)) := by
  induction users with
  | nil =>
    intro best bs
    simp [userScan, maxScoreOf, listMax]
  | cons p rest ih =>
    intro best bs
    obtain ⟨u, ms⟩ := p
    have hu : pySplit u ≠ [] := h (u, ms) (List.mem_cons_self _ _)
    have hrest : ∀ p ∈ rest, pySplit p.1 ≠ [] :=
      fun p hp => h p (List.mem_cons_of_mem _ hp)
    obtain ⟨f, fs, hsplit⟩ : ∃ f fs, pySplit u = f :: fs := by
      cases hs : pySplit u with
      | nil => exact absurd hs hu
      | cons f fs => exact ⟨f, fs, rfl⟩
    have hbu : listMax (toks.map (ratio (pyLower f))) =
        userBestScore ratio toks u := by
      simp [userBestScore, firstNameOf, hsplit]
    have hM : maxScoreOf ratio ((u, ms) :: rest) toks =
        max (userBestScore ratio toks u) (maxScoreOf ratio rest toks) := by
      simp [maxScoreOf, listMax]
    simp only [userScan, hsplit]
    rw [tokenScan_eq, hbu, ih hrest, hM]
    set bu := userBestScore ratio toks u with hbu'
    set Mr := maxScoreOf ratio rest toks with hMr
    refine congrArg Except.ok ?_
    by_cases hA : bs < bu
    · rw [if_pos hA]
      simp only [show max bs bu = bu from by omega]
      by_cases hB : bu < Mr
      · simp only [show max bu Mr = Mr from by omega,
          show max bs Mr = Mr from by omega]
        rw [if_pos hB, if_pos (show bs < Mr from by omega),
          List.find?_cons_of_neg _ (by simp; omega)]
      · rw [if_neg hB]
        simp only [show max bu Mr = bu from by omega,
          show max bs bu = bu from by omega]
        rw [if_pos hA,
          List.find?_cons_of_pos _ (by simp [← hbu'])]
        rfl
    · rw [if_neg hA]
      simp only [show max bs bu = bs from by omega]
      by_cases hB : bs < Mr
      · simp only [show max bu Mr = Mr from by omega,
          show max bs Mr = Mr from by omega]
        rw [if_pos hB, if_pos hB,
          List.find?_cons_of_neg _ (by simp; omega)]
      · rw [if_neg hB, if_neg (show ¬ bs < max bu Mr from by omega)]
        refine Prod.ext ?_ ?_
        · rfl
        · simp only []
          omega

/-- Claim C2: with no substring match and tokenizable user names, the
fuzzy pass returns the user attaining the highest score over all
(user, query-token) pairs when that score reaches 75, resolving ties to
the first user in iteration order, and `none` otherwise. -/
theorem claim_C2_fuzzy_best (ratio : String → String → Nat)
    (users : List (String × List Message)) (q : String)
    (hs : substrPass (pyLower q) users = none)
    (ht : ∀ p ∈ users, pySplit p.1 ≠ []) :
    fuzzyMatchUser ratio users q =
      .ok (if 75 ≤ maxScoreOf ratio users (pySplit (pyLower q)) then
            (users.find? (fun p =>
              userBestScore ratio (pySplit (pyLower q)) p.1 =
                maxScoreOf ratio users (pySplit (pyLower q)))).map (fun p => p.1)
          else none) := by
  simp only [fuzzyMatchUser, hs, userScan_eq ratio (pySplit (pyLower q)) users ht]
  set M := maxScoreOf ratio users (pySplit (pyLower q)) with hMdef
  simp only [show max 0 M = M from by omega]
  by_cases h75 : 75 ≤ M
  · rw [if_pos (show 0 < M from by omega), if_pos h75]
  · simp [h75]

theorem splitWsAux_ne_nil_of_cur (l : List Char) :
    ∀ cur, cur ≠ [] → splitWsAux l cur ≠ [] := by
  induction l with
  | nil =>
    intro cur hc
    simp [splitWsAux, hc]
  | cons c cs ih =>
    intro cur hc
    by_cases hw : c.isWhitespace
    · simp [splitWsAux, hw, hc]
    · simp only [splitWsAux, hw, Bool.false_eq_true, if_false]
      exact ih (c :: cur) (by simp)

theorem splitWsAux_ne_nil (l : List Char) (h : ∃ c ∈ l, ¬ c.isWhitespace) :
    ∀ cur, splitWsAux l cur ≠ [] := by
  induction l with
  | nil => simp at h
  | cons c cs ih =>
    intro cur
    by_cases hw : c.isWhitespace
    · have h' : ∃ x ∈ cs, ¬ x.isWhitespace := by
        obtain ⟨x, hx, hxw⟩ := h
        rcases List.mem_cons.mp hx with rfl | hx'
        · exact absurd hw hxw
        · exact ⟨x, hx', hxw⟩
      by_cases hc : cur = []
      · simp only [splitWsAux, hw, if_true, hc]
        exact ih h' []
      · simp [splitWsAux, hw, hc]
    · simp only [splitWsAux, hw, Bool.false_eq_true, if_false]
      exact splitWsAux_ne_nil_of_cur cs (c :: cur) (by simp)

theorem splitWsAux_all_ws (l : List Char) (h : ∀ c ∈ l, c.isWhitespace) :
    splitWsAux l [] = [] := by
  induction l with
  | nil => rfl
  | cons c cs ih =>
    have hw : c.isWhitespace := h c (List.mem_cons_self _ _)
    simp only [splitWsAux, hw, if_true, reduceIte]
    exact ih (fun x hx => h x (List.mem_cons_of_mem _ hx))

theorem pySplit_ne_nil (s : String) (h : ∃ c ∈ s.toList, ¬ c.isWhitespace) :
    pySplit s ≠ [] := by
  rw [pySplit]
  intro hc
  exact splitWsAux_ne_nil s.toList h [] (List.map_eq_nil_iff.mp hc)

theorem pySplit_all_ws (s : String) (h : ∀ c ∈ s.toList, c.isWhitespace) :
    pySplit s = [] := by
  rw [pySplit, splitWsAux_all_ws s.toList h]
  rfl

theorem userScan_ok (ratio : String → String → Nat) (toks : List String)
    (users : List (String × List Message))
    (h : ∀ p ∈ users, pySplit p.1 ≠ []) :
    ∀ acc, ∃ r, userScan ratio toks users acc = .ok r := by
  induction users with
  | nil => exact fun acc => ⟨acc, rfl⟩
  | cons p rest ih =>
    intro acc
    obtain ⟨u, ms⟩ := p
    obtain ⟨f, fs, hsplit⟩ : ∃ f fs, pySplit u = f :: fs := by
      cases hs : pySplit u with
      | nil => exact absurd hs (h (u, ms) (List.mem_cons_self _ _))
      | cons f fs => exact ⟨f, fs, rfl⟩
    simp only [userScan, hsplit]
    exact ih (fun p hp => h p (List.mem_cons_of_mem _ hp)) _

/-- Claim C10: the matcher never raises when every user name has a
non-whitespace character; a store whose (sole) user name is nonempty
whitespace makes the fuzzy pass raise `IndexError` at `user.split()[0]`
for every query with no substring relation to that name. -/
theorem claim_C10_matcher_totality :
    (∀ (ratio : String → String → Nat)
        (users : List (String × List Message)) (q : String),
      (∀ p ∈ users, ∃ c ∈ p.1.toList, ¬ c.isWhitespace) →
      ∃ r, fuzzyMatchUser ratio users q = .ok r) ∧
    (∀ (ratio : String → String → Nat) (w : String) (ms : List Message)
        (q : String),
      (∀ c ∈ w.toList, c.isWhitespace) →
      strIn (pyLower w) (pyLower q) = false →
      strIn (pyLower q) (pyLower w) = false →
      fuzzyMatchUser ratio [(w, ms)] q = .error "IndexError") := by
  constructor
  · intro ratio users q h
    simp only [fuzzyMatchUser]
    cases hs : substrPass (pyLower q) users with
    | some u => exact ⟨some u, rfl⟩
    | none =>
      have ht : ∀ p ∈ users, pySplit p.1 ≠ [] :=
        fun p hp => pySplit_ne_nil p.1 (h p hp)
      obtain ⟨⟨best, bs⟩, hr⟩ :=
        userScan_ok ratio (pySplit (pyLower q)) users ht (none, 0)
      rw [hr]
      exact ⟨if 75 ≤ bs then best else none, rfl⟩
  · intro ratio w ms q hw h1 h2
    have hsub : substrPass (pyLower q) [(w, ms)] = none := by
      simp [substrPass, h1, h2]
    have hsplit : pySplit w = [] := pySplit_all_ws w hw
    simp [fuzzyMatchUser, hsub, userScan, hsplit]

/-! ### Retriever lemmas -/

/-- Claim C3: keyword retrieval returns at most 20 messages, all with
positive word overlap with the question, in descending overlap order,
with equal-overlap messages kept in corpus order (the filtered result at
each overlap value is a sublist of the corpus). -/
theorem claim_C3_keyword_retrieval (msgs : List Message) (q : String) :
    (keywordRetrieval msgs q 20).length ≤ 20 ∧
    (∀ m ∈ keywordRetrieval msgs q 20, 0 < overlapCount q m) ∧
    (keywordRetrieval msgs q 20).Pairwise
      (fun a b => overlapCount q b ≤ overlapCount q a) ∧
    (∀ k, ((keywordRetrieval msgs q 20).filter
      (fun m => overlapCount q m = k)).Sublist msgs) := by
  simp only [keywordRetrieval]
  set scored := (msgs.map (fun m => (overlapCount q m, m))).filter
    (fun p => 0 < p.1) with hscored
  set sorted := scored.mergeSort (fun a b => decide (b.1 ≤ a.1)) with hsorted
  have htrans : ∀ a b c : Nat × Message, (decide (b.1 ≤ a.1)) = true →
      (decide (c.1 ≤ b.1)) = true → (decide (c.1 ≤ a.1)) = true := by
    intro a b c h1 h2
    simp only [decide_eq_true_eq] at h1 h2 ⊢
    omega
  have htotal : ∀ a b : Nat × Message,
      ((decide (b.1 ≤ a.1)) || (decide (a.1 ≤ b.1))) = true := by
    intro a b
    simp only [Bool.or_eq_true, decide_eq_true_eq]
    omega
  have hmem_scored : ∀ p ∈ scored, p.1 = overlapCount q p.2 ∧ 0 < p.1 := by
    intro p hp
    rw [hscored, List.mem_filter] at hp
    obtain ⟨hpm, hpg⟩ := hp
    obtain ⟨m, _, rfl⟩ := List.mem_map.mp hpm
    exact ⟨rfl, by simpa using hpg⟩
  have hperm : sorted.Perm scored :=
    List.mergeSort_perm scored (fun a b => decide (b.1 ≤ a.1))
  have hmem_take : ∀ p ∈ sorted.take 20,
      p.1 = overlapCount q p.2 ∧ 0 < p.1 :=
    fun p hp =>
      hmem_scored p (hperm.mem_iff.mp ((List.take_sublist 20 sorted).subset hp))
  refine ⟨?_, ?_, ?_, ?_⟩
  · rw [List.length_map]
    exact List.length_take_le 20 sorted
  · intro m hm
    obtain ⟨p, hp, rfl⟩ := List.mem_map.mp hm
    obtain ⟨h1, h2⟩ := hmem_take p hp
    rwa [h1] at h2
  · have hs := List.sorted_mergeSort htrans htotal scored
    have hs2 := List.Pairwise.sublist (List.take_sublist 20 sorted) hs
    rw [List.pairwise_map]
    refine List.Pairwise.imp_of_mem ?_ hs2
    intro a b ha hb hr
    obtain ⟨ha1, _⟩ := hmem_take a ha
    obtain ⟨hb1, _⟩ := hmem_take b hb
    simp only [decide_eq_true_eq] at hr
    rw [← ha1, ← hb1]
    exact hr
  · intro k
    rw [List.filter_map]
    have hcongr : (sorted.take 20).filter
        ((fun m => decide (overlapCount q m = k)) ∘ (fun p : Nat × Message => p.2)) =
        (sorted.take 20).filter (fun p => decide (p.1 = k)) := by
      refine List.filter_congr ?_
      intro p hp
      obtain ⟨h1, _⟩ := hmem_take p hp
      simp only [Function.comp_apply]
      rw [← h1]
    rw [hcongr]
    set A := scored.filter (fun p => decide (p.1 = k)) with hA
    have hAmem : ∀ p ∈ A, p.1 = k := by
      intro p hp
      have := (List.mem_filter.mp hp).2
      simpa using this
    have hApair : A.Pairwise (fun a b => (decide (b.1 ≤ a.1)) = true) := by
      rw [List.pairwise_iff_forall_sublist]
      intro a b hab
      have ha := hab.subset (List.mem_cons_self a [b])
      have hb := hab.subset (List.mem_cons_of_mem a (List.mem_singleton.mpr rfl))
      simp only [decide_eq_true_eq]
      rw [hAmem a ha, hAmem b hb]
    have hAsub : A.Sublist sorted :=
      List.sublist_mergeSort htrans htotal hApair (List.filter_sublist scored)
    have hBA : sorted.filter (fun p => decide (p.1 = k)) = A := by
      have hperm' : (sorted.filter (fun p => decide (p.1 = k))).Perm A :=
        hperm.filter _
      have hsub2 := List.Sublist.filter (fun p => decide (p.1 = k)) hAsub
      have hAf : A.filter (fun p => decide (p.1 = k)) = A :=
        List.filter_eq_self.mpr (fun a ha => by simp [hAmem a ha])
      rw [hAf] at hsub2
      exact (hsub2.eq_of_length hperm'.length_eq.symm).symm
    have hT : ((sorted.take 20).filter (fun p => decide (p.1 = k))).Sublist A := by
      have := List.Sublist.filter (fun p : Nat × Message => decide (p.1 = k))
        (List.take_sublist 20 sorted)
      rwa [hBA] at this
    have hTS : ((sorted.take 20).filter (fun p => decide (p.1 = k))).Sublist scored :=
      hT.trans (List.filter_sublist scored)
    have hmap := hTS.map (fun p : Nat × Message => p.2)
    have hlast : (scored.map (fun p : Nat × Message => p.2)).Sublist msgs := by
      rw [hscored, List.filter_map, List.map_map]
      have hid : ((fun p : Nat × Message => p.2) ∘
          (fun m => (overlapCount q m, m))) = id := rfl
      rw [hid, List.map_id]
      exact List.filter_sublist msgs
    exact hmap.trans hlast

/-! ### Context assembly lemmas -/

theorem strToList_append (s t : String) :
    (s ++ t).toList = s.toList ++ t.toList :=
  rfl

theorem string_eq_empty (s : String) : s = "" ↔ s.toList = [] := by
  constructor
  · intro h; rw [h]; rfl
  · intro h
    have := congrArg String.mk h
    simpa using this

theorem splitNLC_cons (c : Char) (cs : List Char) (a : List Char)
    (t : List (List Char)) (h : splitNLC cs = a :: t) :
    splitNLC (c :: cs) = if c = '\n' then [] :: a :: t else (c :: a) :: t := by
  simp only [splitNLC, h]

theorem splitNLC_ne_nil (l : List Char) : splitNLC l ≠ [] := by
  induction l with
  | nil => simp [splitNLC]
  | cons c cs ih =>
    cases h : splitNLC cs with
    | nil => exact absurd h ih
    | cons a t =>
      rw [splitNLC_cons c cs a t h]
      split <;> simp

theorem splitNLC_no_nl (l : List Char) (h : '\n' ∉ l) : splitNLC l = [l] := by
  induction l with
  | nil => rfl
  | cons c cs ih =>
    have hc : c ≠ '\n' := fun hcon => h (hcon ▸ List.mem_cons_self c cs)
    have hcs : '\n' ∉ cs := fun hx => h (List.mem_cons_of_mem _ hx)
    rw [splitNLC_cons c cs cs [] (ih hcs), if_neg hc]

theorem splitNLC_append (x : List Char) (hx : '\n' ∉ x) :
    ∀ r h t, splitNLC r = h :: t →
      splitNLC (x ++ r) = (x ++ h) :: t := by
  induction x with
  | nil => intro r h t hr; simpa using hr
  | cons c cx ih =>
    intro r h t hr
    have hc : c ≠ '\n' := fun hcon => hx (hcon ▸ List.mem_cons_self c cx)
    have hcx : '\n' ∉ cx := fun hmem => hx (List.mem_cons_of_mem _ hmem)
    rw [List.cons_append, splitNLC_cons c (cx ++ r) _ _ (ih hcx r h t hr),
      if_neg hc, List.cons_append]

theorem splitNLC_join (parts : List (List Char)) :
    parts ≠ [] → (∀ x ∈ parts, '\n' ∉ x) →
    splitNLC (joinNLC parts) = parts := by
  induction parts with
  | nil => intro h _; exact absurd rfl h
  | cons x ps ih =>
    intro _ hall
    have hx : '\n' ∉ x := hall x (List.mem_cons_self _ _)
    cases ps with
    | nil => simpa [joinNLC] using splitNLC_no_nl x hx
    | cons y t =>
      have hps : ∀ z ∈ y :: t, '\n' ∉ z :=
        fun z hz => hall z (List.mem_cons_of_mem _ hz)
      have hrec := ih (by simp) hps
      have hnl : splitNLC ('\n' :: joinNLC (y :: t)) =
          [] :: splitNLC (joinNLC (y :: t)) := by
        cases h : splitNLC (joinNLC (y :: t)) with
        | nil => exact absurd h (splitNLC_ne_nil _)
        | cons a b => rw [splitNLC_cons _ _ _ _ h, if_pos rfl]
      rw [show joinNLC (x :: y :: t) = x ++ '\n' :: joinNLC (y :: t) from rfl,
        splitNLC_append x hx _ _ _ (by rw [hnl, hrec])]
      simp

theorem joinNLC_ne_nil (x : List Char) (ps : List (List Char)) (hx : x ≠ []) :
    joinNLC (x :: ps) ≠ [] := by
  cases ps with
  | nil => simpa [joinNLC] using hx
  | cons y t => simp [joinNLC]

theorem pyJoin_toList (parts : List String) :
    (pyJoin "\n" parts).toList = joinNLC (parts.map String.toList) := by
  induction parts with
  | nil => rfl
  | cons x ps ih =>
    cases ps with
    | nil => rfl
    | cons y t =>
      show (x ++ "\n" ++ pyJoin "\n" (y :: t)).toList = _
      rw [strToList_append, strToList_append, ih]
      show x.toList ++ ['\n'] ++ joinNLC ((y :: t).map String.toList) =
        x.toList ++ '\n' :: joinNLC ((y :: t).map String.toList)
      simp

theorem fmtMsg_toList_ne_nil (m : Message) : (fmtMsg m).toList ≠ [] := by
  simp [fmtMsg, strToList_append]

/-- Claim C8: the Retriever's context text is the newline join of one
formatted `[date] user: text` line per source message in order; it is
empty exactly when there are no source messages; and (when no formatted
line contains an embedded newline) splitting the context at newlines
recovers exactly the per-message lines. -/
theorem claim_C8_context_text (ratio : String → String → Nat)
    (msgs : List Message) (d : UserDict) (q : String) (ctx : String)
    (srcs : List Message) (d' : UserDict)
    (h : retrieveContext ratio msgs d q = .ok ((ctx, srcs), d')) :
    ctx = pyJoin "\n" (srcs.map fmtMsg) ∧
    (ctx = "" ↔ srcs = []) ∧
    (srcs ≠ [] → (∀ m ∈ srcs, '\n' ∉ (fmtMsg m).toList) →
      splitNLC ctx.toList = srcs.map (fun m => (fmtMsg m).toList)) := by
  have hctx : ctx = pyJoin "\n" (srcs.map fmtMsg) := by
    unfold retrieveContext at h
    cases hm : fuzzyMatchUser ratio d q with
    | error e => rw [hm] at h; cases h
    | ok um =>
      rw [hm] at h
      simp only [Except.ok.injEq, Prod.mk.injEq] at h
      obtain ⟨⟨hc, hsrc⟩, _⟩ := h
      rw [← hc, hsrc]
  refine ⟨hctx, ?_, ?_⟩
  · rw [hctx]
    constructor
    · intro he
      cases hs : srcs with
      | nil => rfl
      | cons m rest =>
        rw [hs] at he
        rw [string_eq_empty, pyJoin_toList] at he
        simp only [List.map_cons, List.map_map] at he
        exact absurd he (joinNLC_ne_nil _ _ (fmtMsg_toList_ne_nil m))
    · intro he; rw [he]; rfl
  · intro hne hnonl
    rw [hctx, pyJoin_toList, List.map_map]
    rw [splitNLC_join]
    · rfl
    · simpa using hne
    · intro x hx
      obtain ⟨m, hm, rfl⟩ := List.mem_map.mp hx
      exact hnonl m hm

/-! ### Frame property and facade lemmas -/

/-- Claim C9: answering a question mutates nothing — the per-user dict
coming out of retrieval (the only query-phase use of the auto-vivifying
`defaultdict` subscript, guarded by a key-membership test) and out of the
whole fallback-mode answer path is the input dict; the message list is
never written during the query phase. -/
theorem claim_C9_query_phase_pure (ratio : String → String → Nat)
    (msgs : List Message) (d : UserDict) (q : String) :
    (∀ r d', retrieveContext ratio msgs d q = .ok (r, d') → d' = d) ∧
    (∀ a d', answerQuestionFB ratio msgs d q = .ok (a, d') → d' = d) := by
  have hret : ∀ r d', retrieveContext ratio msgs d q = .ok (r, d') → d' = d := by
    intro r d' h
    unfold retrieveContext at h
    cases hm : fuzzyMatchUser ratio d q with
    | error e => rw [hm] at h; cases h
    | ok um =>
      rw [hm] at h
      simp only [Except.ok.injEq, Prod.mk.injEq] at h
      obtain ⟨-, hd⟩ := h
      rw [← hd]
      cases um with
      | none => rfl
      | some u =>
        by_cases hc : u ≠ "" ∧ keyMem d u = true
        · simp only [if_pos hc]
          obtain ⟨-, hk⟩ := hc
          unfold keyMem at hk
          unfold ddIndex
          cases hl : dLookup d u with
          | some v => rfl
          | none => rw [hl] at hk; simp at hk
        · simp only [if_neg hc]
  refine ⟨hret, ?_⟩
  intro a d' h
  unfold answerQuestionFB at h
  cases hr : retrieveContext ratio msgs d q with
  | error e => rw [hr] at h; cases h
  | ok pr =>
    obtain ⟨⟨ctx, srcs⟩, d2⟩ := pr
    have hd2 : d2 = d := hret (ctx, srcs) d2 hr
    rw [hr] at h
    by_cases hctx : ctx = ""
    · simp only [if_pos hctx, Except.ok.injEq, Prod.mk.injEq] at h
      rw [← h.2, hd2]
    · simp only [if_neg hctx, Except.ok.injEq, Prod.mk.injEq] at h
      rw [← h.2, hd2]

/-- Claim C5: with an empty context the facade returns the fixed
no-information answer for every generator (the generator is never
consulted); with a nonempty context it returns the generator's output
verbatim. -/
theorem claim_C5_facade (ratio : String → String → Nat)
    (gen : String → String → String) (msgs : List Message) (d : UserDict)
    (q ctx : String) (srcs : List Message) (d' : UserDict)
    (h : retrieveContext ratio msgs d q = .ok ((ctx, srcs), d')) :
    (ctx = "" → answerQuestion ratio gen msgs d q = .ok (noInfoMsg, d')) ∧
    (ctx ≠ "" → answerQuestion ratio gen msgs d q = .ok (gen q ctx, d')) := by
  constructor
  · intro hc
    unfold answerQuestion
    rw [h]
    simp [hc]
  · intro hc
    unfold answerQuestion
    rw [h]
    simp [hc]

/-- Claim C6: in fallback mode, a question triggering the first keyword
category (trip/travel/when) for a matched user with at least one
trip/travel message is answered with the `"Based on ..."` string built
from at most 3 matching message texts joined by `"; "` — regardless of
whether later categories would also match. -/
theorem claim_C6_fallback_first_category (ratio : String → String → Nat)
    (d : UserDict) (q u ctx : String)
    (hm : fuzzyMatchUser ratio d q = .ok (some u))
    (hne : u ≠ "")
    (hmsgs : dictGet d u [] ≠ [])
    (hcat : (strIn "trip" (pyLower q) || strIn "travel" (pyLower q) ||
      strIn "when" (pyLower q)) = true)
    (hrel : (dictGet d u []).filter (fun m =>
      strIn "trip" (pyLower m.message) ||
      strIn "travel" (pyLower m.message)) ≠ []) :
    generateFallback ratio d q ctx =
      .ok (basedOnMsg u ((dictGet d u []).filter (fun m =>
        strIn "trip" (pyLower m.message) ||
        strIn "travel" (pyLower m.message)))) := by
  unfold generateFallback
  rw [hm]
  simp only [if_neg hne, if_neg hmsgs, hcat, if_true, if_neg hrel]

/-! ### Witnesses: the theorems above applied at concrete inputs -/

/-- Concrete score function for witnesses: 100 on equal strings, else 0. -/
def ratioEq : String → String → Nat :=
  fun a b => if a = b then 100 else 0

/-- Witness for C7: one 200-page with items and no total leaves the loop
running; one 200-page whose total is already covered stops after exactly
one request. -/
theorem claim_C7_witness :
    (fetchMessages [FetchResponse.http 200 (some [mA]) none]).finished = false ∧
    ((fetchLoop [FetchResponse.http 200 (some [mA]) (some 1)] [] [] 0 0).finished = true ∧
      (fetchLoop [FetchResponse.http 200 (some [mA]) (some 1)] [] [] 0 0).requests = 1) :=
  ⟨claim_C7_fetch_stop_conditions.2.2.1 [FetchResponse.http 200 (some [mA]) none]
      (by intro r hr; rw [List.mem_singleton] at hr; rw [hr]; decide),
    (claim_C7_fetch_stop_conditions.2.2.2 (some [mA]) (some 1) [] [] [] 0 0).mpr
      (Or.inr (Or.inr ⟨[mA], 1, rfl, rfl, by simp, by simp⟩))⟩

/-- Witness for C4: a query containing a user name verbatim is matched by
the substring pass. -/
theorem claim_C4_witness :
    fuzzyMatchUser ratioEq [("Alice Smith", [mA])] "does Alice Smith travel" =
      .ok (some "Alice Smith") :=
  claim_C4_substring_pass ratioEq [("Alice Smith", [mA])]
    "does Alice Smith travel" ("Alice Smith", [mA]) (by decide)

/-- Witness for C2: a fuzzy first-name hit at score 100 returns that
user. -/
theorem claim_C2_witness :
    fuzzyMatchUser ratioEq [("Bob Jones", [])] "where is bob" =
      .ok (some "Bob Jones") := by
  have h := claim_C2_fuzzy_best ratioEq [("Bob Jones", [])] "where is bob"
    (by decide) (by decide)
  rw [h]
  rfl

/-- Witness for C10: a store of tokenizable names never raises; a store
whose only user name is `" "` raises `IndexError` on an unrelated
query. -/
theorem claim_C10_witness :
    (∃ r, fuzzyMatchUser ratioEq [("Alice Smith", [mA])] "hello" = .ok r) ∧
    fuzzyMatchUser ratioEq [(" ", [])] "bob" = .error "IndexError" :=
  ⟨claim_C10_matcher_totality.1 ratioEq [("Alice Smith", [mA])] "hello"
      (by decide),
    claim_C10_matcher_totality.2 ratioEq " " [] "bob"
      (by decide) (by decide) (by decide)⟩

/-- Witness for C3: on a one-message corpus sharing two words with the
question, retrieval returns that message with positive overlap and obeys
the cap. -/
theorem claim_C3_witness :
    0 < overlapCount "great trip" mA ∧
    (keywordRetrieval [mA] "great trip" 20).length ≤ 20 := by
  have hkr : keywordRetrieval [mA] "great trip" 20 = [mA] := by
    have h2 : overlapCount "great trip" mA = 2 := by decide
    simp [keywordRetrieval, h2, List.mergeSort_singleton]
  refine ⟨?_, (claim_C3_keyword_retrieval [mA] "great trip").1⟩
  exact (claim_C3_keyword_retrieval [mA] "great trip").2.1 mA
    (by rw [hkr]; exact List.mem_singleton_self mA)

/-- Witness for C8: splitting the concrete one-user context at newlines
recovers exactly its one formatted line. -/
theorem claim_C8_witness :
    splitNLC ("[2024-01-02] Alice Smith: my trip was great").toList =
      [mA].map (fun m => (fmtMsg m).toList) :=
  (claim_C8_context_text ratioEq [mA] [("Alice Smith", [mA])] "alice"
      "[2024-01-02] Alice Smith: my trip was great" [mA]
      [("Alice Smith", [mA])] rfl).2.2 (by decide) (by decide)

/-- Witness for C9: a concrete retrieval through the guarded defaultdict
subscript hands back the input dict unchanged. -/
theorem claim_C9_witness :
    retrieveContext ratioEq [mA] [("Alice Smith", [mA])] "alice" =
      .ok (("[2024-01-02] Alice Smith: my trip was great", [mA]),
        [("Alice Smith", [mA])]) ∧
    ([("Alice Smith", [mA])] : UserDict) = [("Alice Smith", [mA])] :=
  ⟨rfl,
    (claim_C9_query_phase_pure ratioEq [mA] [("Alice Smith", [mA])] "alice").1
      ("[2024-01-02] Alice Smith: my trip was great", [mA])
      [("Alice Smith", [mA])] rfl⟩

/-- Witness for C5: a nonempty context is passed verbatim to the
generator (here the echo generator), and an empty context short-circuits
to the fixed no-information answer. -/
theorem claim_C5_witness :
    answerQuestion ratioEq (fun _ c => c) [mA] [("Alice Smith", [mA])] "alice" =
      .ok ("[2024-01-02] Alice Smith: my trip was great",
        [("Alice Smith", [mA])]) ∧
    answerQuestion ratioEq (fun _ c => c) [] [] "zzz" = .ok (noInfoMsg, []) := by
  have hempty : retrieveContext ratioEq [] [] "zzz" = .ok (("", []), []) := by
    simp [retrieveContext, fuzzyMatchUser, substrPass, userScan,
      keywordRetrieval, List.mergeSort_nil, pyJoin]
  exact ⟨(claim_C5_facade ratioEq (fun _ c => c) [mA] [("Alice Smith", [mA])]
      "alice" "[2024-01-02] Alice Smith: my trip was great" [mA]
      [("Alice Smith", [mA])] rfl).2 (by decide),
    (claim_C5_facade ratioEq (fun _ c => c) [] [] "zzz" "" [] []
      hempty).1 rfl⟩

/-- Witness for C6: a question triggering both the first (when) and the
second (car) category is answered from the first category only. -/
theorem claim_C6_witness :
    generateFallback ratioEq [("Alice Smith", [mA, mB])]
        "when did alice get the car" "ctx" =
      .ok ("Based on Alice Smith's messages: my trip was great") := by
  have h := claim_C6_fallback_first_category ratioEq
    [("Alice Smith", [mA, mB])] "when did alice get the car" "Alice Smith"
    "ctx" rfl (by decide) (by decide) (by decide) (by decide)
  rw [h]
  rfl

end QA
